import Mathlib

/-!
Verification development for the ClipSon clipboard synchronization daemon
(`clipson.py`).  The Python source is shallowly embedded below: the
fingerprint engine, the remote poll loop, the local capture bookkeeping and
the copyq multi-format clipboard write are translated into executable Lean
definitions, and the behavioural properties of the specification are proved
or refuted about them.
-/

namespace ClipSon

/-! ## MD5 (used by the source through `hashlib.md5(...).hexdigest()`) -/

/-- 32-bit left rotation, on naturals reduced mod 2^32. -/
def rol32 (x s : Nat) : Nat :=
  ((x <<< s) ||| (x >>> (32 - s))) % 4294967296

/-- The 64 MD5 round constants (RFC 1321). -/
def md5K : List Nat :=
  [0xd76aa478, 0xe8c7b756, 0x242070db, 0xc1bdceee,
   0xf57c0faf, 0x4787c62a, 0xa8304613, 0xfd469501,
   0x698098d8, 0x8b44f7af, 0xffff5bb1, 0x895cd7be,
   0x6b901122, 0xfd987193, 0xa679438e, 0x49b40821,
   0xf61e2562, 0xc040b340, 0x265e5a51, 0xe9b6c7aa,
   0xd62f105d, 0x02441453, 0xd8a1e681, 0xe7d3fbc8,
   0x21e1cde6, 0xc33707d6, 0xf4d50d87, 0x455a14ed,
   0xa9e3e905, 0xfcefa3f8, 0x676f02d9, 0x8d2a4c8a,
   0xfffa3942, 0x8771f681, 0x6d9d6122, 0xfde5380c,
   0xa4beea44, 0x4bdecfa9, 0xf6bb4b60, 0xbebfbc70,
   0x289b7ec6, 0xeaa127fa, 0xd4ef3085, 0x04881d05,
   0xd9d4d039, 0xe6db99e5, 0x1fa27cf8, 0xc4ac5665,
   0xf4292244, 0x432aff97, 0xab9423a7, 0xfc93a039,
   0x655b59c3, 0x8f0ccc92, 0xffeff47d, 0x85845dd1,
   0x6fa87e4f, 0xfe2ce6e0, 0xa3014314, 0x4e0811a1,
   0xf7537e82, 0xbd3af235, 0x2ad7d2bb, 0xeb86d391]

/-- The 64 MD5 per-round shift amounts. -/
def md5S : List Nat :=
  [7, 12, 17, 22, 7, 12, 17, 22, 7, 12, 17, 22, 7, 12, 17, 22,
   5, 9, 14, 20, 5, 9, 14, 20, 5, 9, 14, 20, 5, 9, 14, 20,
   4, 11, 16, 23, 4, 11, 16, 23, 4, 11, 16, 23, 4, 11, 16, 23,
   6, 10, 15, 21, 6, 10, 15, 21, 6, 10, 15, 21, 6, 10, 15, 21]

/-- MD5 nonlinear function for round `i`. -/
def md5F (i b c d : Nat) : Nat :=
  if i < 16 then (b &&& c) ||| ((b ^^^ 0xffffffff) &&& d)
  else if i < 32 then (d &&& b) ||| ((d ^^^ 0xffffffff) &&& c)
  else if i < 48 then b ^^^ c ^^^ d
  else c ^^^ (b ||| (d ^^^ 0xffffffff))

/-- MD5 message word index for round `i`. -/
def md5G (i : Nat) : Nat :=
  if i < 16 then i
  else if i < 32 then (5 * i + 1) % 16
  else if i < 48 then (3 * i + 5) % 16
  else (7 * i) % 16

/-- Little-endian 32-bit word `j` of a 64-byte chunk. -/
def le32Word (chunk : List Nat) (j : Nat) : Nat :=
  chunk.getD (4 * j) 0 + 256 * chunk.getD (4 * j + 1) 0 +
    65536 * chunk.getD (4 * j + 2) 0 + 16777216 * chunk.getD (4 * j + 3) 0

/-- One MD5 round on the state `(a, b, c, d)`. -/
def md5Round (m : List Nat) (st : Nat × Nat × Nat × Nat) (i : Nat) :
    Nat × Nat × Nat × Nat :=
  match st with
  | (a, b, c, d) =>
    let f := (md5F i b c d + a + md5K.getD i 0 + m.getD (md5G i) 0) % 4294967296
    (d, (b + rol32 f (md5S.getD i 0)) % 4294967296, b, c)

/-- Process one 64-byte chunk. -/
def md5Chunk (st : Nat × Nat × Nat × Nat) (chunk : List Nat) :
    Nat × Nat × Nat × Nat :=
  let m := (List.range 16).map (le32Word chunk)
  match st, (List.range 64).foldl (md5Round m) st with
  | (a0, b0, c0, d0), (a, b, c, d) =>
    ((a0 + a) % 4294967296, (b0 + b) % 4294967296,
     (c0 + c) % 4294967296, (d0 + d) % 4294967296)

/-- MD5 padding: 0x80, zeros to 56 mod 64, then the bit length little-endian. -/
def md5Pad (msg : List Nat) : List Nat :=
  let len := msg.length
  let z := (56 + 64 - ((len + 1) % 64)) % 64
  let bitLen := (len * 8) % 18446744073709551616
  msg ++ [0x80] ++ List.replicate z 0 ++
    (List.range 8).map (fun i => (bitLen >>> (8 * i)) % 256)

/-- Process `n` chunks of 64 bytes from the padded message. -/
def md5Chunks : Nat → List Nat → Nat × Nat × Nat × Nat → Nat × Nat × Nat × Nat
  | 0, _, st => st
  | n + 1, l, st => md5Chunks n (l.drop 64) (md5Chunk st (l.take 64))

/-- Little-endian byte decomposition of a 32-bit word. -/
def le4 (x : Nat) : List Nat :=
  [x % 256, x / 256 % 256, x / 65536 % 256, x / 16777216 % 256]

/-- MD5 digest (16 bytes) of a byte sequence. -/
def md5Bytes (msg : List Nat) : List Nat :=
  let p := md5Pad msg
  match md5Chunks (p.length / 64) p
      (0x67452301, 0xefcdab89, 0x98badcfe, 0x10325476) with
  | (a, b, c, d) => le4 a ++ le4 b ++ le4 c ++ le4 d

/-- Lowercase hexadecimal digit. -/
def hexChar (n : Nat) : Char :=
  if n < 10 then Char.ofNat (48 + n) else Char.ofNat (87 + n)

/-- Lowercase hex rendering of one byte. -/
def byteHex (b : Nat) : List Char :=
  [hexChar (b / 16), hexChar (b % 16)]

/-- `hashlib.md5(bytes).hexdigest()`. -/
def md5hexBytes (msg : List Nat) : String :=
  String.mk ((md5Bytes msg).flatMap byteHex)

/-- UTF-8 encoding of one character (1 to 4 bytes). -/
def utf8Char (c : Char) : List Nat :=
  let n := c.toNat
  if n < 0x80 then [n]
  else if n < 0x800 then [0xc0 ||| (n >>> 6), 0x80 ||| (n &&& 0x3f)]
  else if n < 0x10000 then
    [0xe0 ||| (n >>> 12), 0x80 ||| ((n >>> 6) &&& 0x3f), 0x80 ||| (n &&& 0x3f)]
  else
    [0xf0 ||| (n >>> 18), 0x80 ||| ((n >>> 12) &&& 0x3f),
     0x80 ||| ((n >>> 6) &&& 0x3f), 0x80 ||| (n &&& 0x3f)]

/-- `s.encode('utf-8')` as a list of byte values. -/
def utf8Bytes (s : String) : List Nat :=
  s.data.flatMap utf8Char

/-- `hashlib.md5(s.encode('utf-8')).hexdigest()`. -/
def md5hex (s : String) : String :=
  md5hexBytes (utf8Bytes s)

/-! ## Python string helpers used by the source -/

/-- ASCII whitespace, as matched by Python `str.strip()` and the regex
class in the source (the source may additionally match rarer Unicode
whitespace; the contents handled here are ASCII). -/
def pyIsSpace (c : Char) : Bool :=
  c = ' ' || c = '\t' || c = '\n' || c = '\r' || c.toNat = 11 || c.toNat = 12

/-- Python `s.strip()`. -/
def pyStrip (s : String) : String :=
  String.mk (((s.data.dropWhile pyIsSpace).reverse.dropWhile pyIsSpace).reverse)

/-- Collapse every maximal whitespace run into one space:
`re.sub(r'\s+', ' ', s)`.  The flag records whether the previous
character was part of a whitespace run. -/
def collapseWsAux : Bool → List Char → List Char
  | _, [] => []
  | prevSpace, c :: rest =>
    if pyIsSpace c then
      if prevSpace then collapseWsAux true rest
      else ' ' :: collapseWsAux true rest
    else c :: collapseWsAux false rest

/-- `re.sub(r'>\s+<', '><', s)` applied after whitespace collapsing, so the
gap between tags is at most a single space. -/
def collapseTagGap : List Char → List Char
  | [] => []
  | '>' :: ' ' :: '<' :: rest => '>' :: '<' :: collapseTagGap rest
  | c :: rest => c :: collapseTagGap rest

/-- HTML normalization in `get_current_clipboard_fingerprint`:
`re.sub(r'\s+', ' ', content.strip())` then `re.sub(r'>\s+<', '><', ...)`. -/
def normalizeHtml (s : String) : String :=
  String.mk (collapseTagGap (collapseWsAux false (pyStrip s).data))

/-! ## JSON rendering (mirrors `json.dumps(..., ensure_ascii=False,
sort_keys=True)` with default separators) -/

/-- JSON escaping of a single character, as `json.dumps` performs it. -/
def jsonEscapeChar (c : Char) : String :=
  if c = '"' then "\\\""
  else if c = '\\' then "\\\\"
  else if c = '\n' then "\\n"
  else if c = '\t' then "\\t"
  else if c = '\r' then "\\r"
  else if c.toNat = 8 then "\\b"
  else if c.toNat = 12 then "\\f"
  else if c.toNat < 32 then
    "\\u00" ++ String.mk [hexChar (c.toNat / 16), hexChar (c.toNat % 16)]
  else String.singleton c

/-- A JSON string literal. -/
def jsonStr (s : String) : String :=
  "\"" ++ String.join (s.data.map jsonEscapeChar) ++ "\""

/-- Strict lexicographic code-point order on character lists, the order
Python uses to compare strings. -/
def charsLt : List Char → List Char → Bool
  | [], [] => false
  | [], _ :: _ => true
  | _ :: _, [] => false
  | a :: as, b :: bs =>
    a.toNat < b.toNat || (a == b && charsLt as bs)

/-- Python string `<`. -/
def strLt (s t : String) : Bool :=
  charsLt s.data t.data

/-- Insert into an association list sorted by key (Python `sorted`;
the keys involved are distinct MIME names, so strict `<` suffices). -/
def insertByKey (p : String × String) :
    List (String × String) → List (String × String)
  | [] => [p]
  | q :: rest => if strLt p.1 q.1 then p :: q :: rest else q :: insertByKey p rest

/-- Sort an association list by key, as `json.dumps(..., sort_keys=True)`. -/
def sortByKey : List (String × String) → List (String × String)
  | [] => []
  | p :: rest => insertByKey p (sortByKey rest)

/-- Render a string-to-string mapping as a JSON object with the default
`json.dumps` separators. -/
def jsonObjStr (l : List (String × String)) : String :=
  "\x7b" ++
    String.intercalate ", " (l.map (fun p => jsonStr p.1 ++ ": " ++ jsonStr p.2)) ++
    "\x7d"

/-- First-match association-list lookup (Python dict access by key). -/
def lookupA (l : List (String × String)) (k : String) : Option String :=
  (l.find? (fun p => p.1 == k)).map (fun p => p.2)

/-! ## Clipboard adapter state

A `ClipState` abstracts what the external clipboard backend answers during
one reconciliation tick: the list of available targets, and the contents the
backend returns for the image read, each per-format read, and the plain-text
read (`none` models a non-zero exit status or an exception). -/

structure ClipState where
  formats : List String
  imageData : Option (List Nat)
  readFormat : String → Option String
  plainRead : Option String

/-- MIME types treated as images in `has_clipboard_image`. -/
def imageTargetList : List String :=
  ["image/png", "image/jpeg", "image/gif", "image/bmp", "image/tiff"]

/-- MIME types treated as rich text in `has_clipboard_rich_text`. -/
def richTargetList : List String :=
  ["text/html", "text/rtf", "text/richtext",
   "application/rtf", "application/x-rtf",
   "text/x-moz-url", "text/uri-list",
   "application/x-color"]

/-- `has_clipboard_image`. -/
def hasClipboardImage (s : ClipState) : Bool :=
  s.formats.any (fun t => imageTargetList.contains (pyStrip t))

/-- `has_clipboard_rich_text`. -/
def hasClipboardRichText (s : ClipState) : Bool :=
  s.formats.any (fun t => richTargetList.contains (pyStrip t))

/-- `get_clipboard_content`: the raw stdout, provided the exit status was 0
and the stripped stdout is nonempty. -/
def getClipboardContent (s : ClipState) : Option String :=
  match s.plainRead with
  | some r => if pyStrip r = "" then none else some r
  | none => none

/-- A successful per-format read: stdout with nonempty strip, stripped. -/
def readFormatContent (s : ClipState) (f : String) : Option String :=
  match s.readFormat f with
  | some r => if pyStrip r = "" then none else some (pyStrip r)
  | none => none

/-- The fixed format priority list shared by
`save_clipboard_rich_content` and `get_current_clipboard_fingerprint`. -/
def formatPriorityList : List String :=
  ["text/plain", "text/html", "text/rtf", "application/rtf",
   "application/x-rtf", "text/richtext", "text/uri-list", "text/x-moz-url"]

/-- The per-format collection loop: walk the priority list, keep formats
that are offered and read successfully, skipping contents already seen
(exact duplicate suppression). -/
def buildFormatData (s : ClipState) : List String → List String → List (String × String)
  | [], _ => []
  | f :: rest, seen =>
    if s.formats.contains f then
      match readFormatContent s f with
      | some c =>
        if seen.contains c then buildFormatData s rest seen
        else (f, c) :: buildFormatData s rest (c :: seen)
      | none => buildFormatData s rest seen
    else buildFormatData s rest seen

/-- `current_format_data` of the fingerprint engine (also `format_data` of
the rich capture, which uses the same loop). -/
def richData (s : ClipState) : List (String × String) :=
  buildFormatData s formatPriorityList []

/-- Formats hashed rather than compared raw in the fingerprint. -/
def volatileList : List String :=
  ["text/html", "text/rtf", "application/rtf", "application/x-rtf"]

/-- The comparison value stored for one format: HTML is
whitespace-normalized then hashed, the other volatile formats and
`text/plain` are hashed raw, everything else is kept verbatim. -/
def compValue (f c : String) : String :=
  if volatileList.contains f then
    if f = "text/html" then md5hex (normalizeHtml c) else md5hex c
  else if f = "text/plain" then md5hex c
  else c

/-- `comparison_data` of the fingerprint engine. -/
def comparisonData (s : ClipState) : List (String × String) :=
  (richData s).map (fun p => (p.1, compValue p.1 p.2))

/-- `json.dumps({"formats": comparison_data}, ensure_ascii=False,
sort_keys=True)`. -/
def richFpStr (comp : List (String × String)) : String :=
  "\x7b\"formats\": " ++ jsonObjStr (sortByKey comp) ++ "\x7d"

/-- The MultiFormat fingerprint of a clipboard state. -/
def richFingerprintOf (s : ClipState) : String :=
  richFpStr (comparisonData s)

/-- The Image fingerprint string. -/
def imageFingerprint (bs : List Nat) : String :=
  "\x7b\"format\": \"png\", \"hash\": \"" ++ md5hexBytes bs ++
    "\", \"size\": " ++ toString bs.length ++ ", \"type\": \"CLIPBOARD_IMAGE\"\x7d"

/-- The PlainText fingerprint string. -/
def plainFingerprint (c : String) : String :=
  "\x7b\"hash\": \"" ++ md5hex c ++ "\", \"type\": \"PLAIN_TEXT\"\x7d"

/-- Two collected format-data lists agree except possibly in HTML
whitespace: same formats in the same order, equal contents everywhere,
and equal whitespace-normalized contents for `text/html`. -/
def htmlWsEquiv : List (String × String) → List (String × String) → Bool
  | [], [] => true
  | a :: l1, b :: l2 =>
    a.1 == b.1 &&
      (if a.1 = "text/html" then normalizeHtml a.2 == normalizeHtml b.2
       else a.2 == b.2) &&
      htmlWsEquiv l1 l2
  | _, _ => false

/-- Engine state consulted and mutated by the fingerprint computation:
`last_clipboard_content` and (when set) `last_plain_text_content`. -/
structure EngineState where
  last : String
  lastPlain : Option String
deriving DecidableEq

/-- The image stage: a fingerprint is produced only when an image target is
advertised and the PNG read yields a nonempty payload; otherwise the engine
falls through to the rich-text stage. -/
def imageFpOpt (s : ClipState) : Option String :=
  if hasClipboardImage s then
    match s.imageData with
    | some bs => if bs = [] then none else some (imageFingerprint bs)
    | none => none
  else none

/-- The rich-text stage with the plain-text duplicate-suppression tracker:
when the current `text/plain` comparison hash equals the stored
`last_plain_text_content`, the stored `last_clipboard_content` is returned
instead of the fresh fingerprint (falling back to the fresh one when the
store is empty). -/
def richTrack (s : ClipState) (e : EngineState) : String × EngineState :=
  let fp := richFingerprintOf s
  match lookupA (comparisonData s) "text/plain" with
  | some p =>
    if e.lastPlain = some p then
      (if e.last ≠ "" then e.last else fp, e)
    else (fp, { e with lastPlain := some p })
  | none => (fp, e)

/-- The plain-text stage, or the empty fingerprint when nothing is found. -/
def plainOrEmpty (s : ClipState) (e : EngineState) : String × EngineState :=
  match getClipboardContent s with
  | some c => (plainFingerprint c, e)
  | none => ("", e)

/-- `get_current_clipboard_fingerprint`: image, then rich text (when rich
targets exist and at least one format was collected), then plain text,
else empty.  Returns the fingerprint and the updated engine state. -/
def getFingerprint (s : ClipState) (e : EngineState) : String × EngineState :=
  match imageFpOpt s with
  | some fp => (fp, e)
  | none =>
    if hasClipboardRichText s = true ∧ richData s ≠ [] then richTrack s e
    else plainOrEmpty s e

/-- Lines 528-541: after a remote snapshot is written to the clipboard,
the engine recomputes the fingerprint from the adapter state `s` and stores
it as `last_clipboard_content`. -/
def afterRemoteApply (s : ClipState) (e : EngineState) : EngineState :=
  ⟨(getFingerprint s e).1, (getFingerprint s e).2.lastPlain⟩

/-- The main-loop capture condition (line 1032):
`current_fingerprint and current_fingerprint != self.last_clipboard_content`. -/
def shouldCapture (fp last : String) : Bool :=
  fp != "" && fp != last

/-! ## Remote sync client (`check_all_remote_files_for_updates` and the
peer filters) -/

/-- A remote store entry as parsed from the PROPFIND listing: name and
last-modified timestamp in epoch seconds (`none` when unparseable). -/
structure RemoteFile where
  name : String
  lastModified : Option Int
deriving DecidableEq

/-- The timestamp of a remote file, with the 0 default the source uses. -/
def tsOf (f : RemoteFile) : Int :=
  f.lastModified.getD 0

/-- The outcome of downloading and processing one peer file:
`fail` models `download_remote_file` returning `False` (nothing happens),
`crash` models an exception inside the processing block (nothing happens),
`gzFail` models a failed decompression (timestamp still advanced),
`ok c` models a downloaded and decompressed payload read as `c`. -/
inductive DlResult where
  | fail
  | crash
  | gzFail
  | ok (content : String)
deriving DecidableEq

/-- `clipboard-<hostname>.json.gz`, the host's own upload name. -/
def ownFileName (host : String) : String :=
  "clipboard-" ++ host ++ ".json.gz"

/-- Character-list leading-segment test (structural, so that concrete
instances evaluate inside the kernel). -/
def charsLead : List Char → List Char → Bool
  | [], _ => true
  | _ :: _, [] => false
  | a :: as, b :: bs => a == b && charsLead as bs

/-- Python `s.startswith(pre)`. -/
def strStartsWith (s pre : String) : Bool :=
  charsLead pre.data s.data

/-- Python `s.endswith(suf)`. -/
def strEndsWith (s suf : String) : Bool :=
  charsLead suf.data.reverse s.data.reverse

/-- The per-poll peer list (line 454): everything but the own file, with
the naming convention enforced. -/
def peerFilter (host : String) (remote : List RemoteFile) : List RemoteFile :=
  remote.filter (fun f =>
    f.name != ownFileName host &&
      strStartsWith f.name "clipboard-" && strEndsWith f.name ".json.gz")

/-- The peer-discovery filter (line 350): everything but the own file. -/
def discoverFilter (host : String) (remote : List RemoteFile) : List RemoteFile :=
  remote.filter (fun f => f.name != ownFileName host)

/-- The peer timestamp table `remote_file_timestamps`. -/
abbrev Table := List (String × Int)

/-- Table lookup (dict access). -/
def lookupT (t : Table) (n : String) : Option Int :=
  (List.find? (fun p => p.1 == n) t).map (fun p => p.2)

/-- Table update (dict assignment). -/
def setT : Table → String → Int → Table
  | [], n, v => [(n, v)]
  | (m, w) :: t, n, v => if m = n then (n, v) :: t else (m, w) :: setT t n v

/-- Accumulator of the poll loop: the evolving timestamp table and the
most-recent candidate found so far. -/
structure PollAcc where
  table : Table
  mostTs : Int
  mostContent : Option String

/-- Lines 466-474: an unknown name is registered with recorded timestamp 0
(so it is processed as an update). -/
def bumpNew (tbl : Table) (n : String) : Table :=
  if (lookupT tbl n).isNone then setT tbl n 0 else tbl

/-- One iteration of the poll loop (lines 462-526): register unknown names
with timestamp 0, skip entries without a parsed timestamp, and for entries
strictly newer than the recorded timestamp download them, track the
globally newest nonempty payload, and advance the recorded timestamp
whenever the download (and decompression attempt) took place. -/
def pollStep (dl : String → DlResult) (acc : PollAcc) (f : RemoteFile) : PollAcc :=
  match f.lastModified with
  | none => ⟨bumpNew acc.table f.name, acc.mostTs, acc.mostContent⟩
  | some rts =>
    if (lookupT (bumpNew acc.table f.name) f.name).getD 0 < rts then
      match dl f.name with
      | .fail => ⟨bumpNew acc.table f.name, acc.mostTs, acc.mostContent⟩
      | .crash => ⟨bumpNew acc.table f.name, acc.mostTs, acc.mostContent⟩
      | .gzFail =>
        ⟨setT (bumpNew acc.table f.name) f.name rts, acc.mostTs, acc.mostContent⟩
      | .ok c =>
        if pyStrip c ≠ "" ∧ acc.mostTs < rts then
          ⟨setT (bumpNew acc.table f.name) f.name rts, rts, some c⟩
        else
          ⟨setT (bumpNew acc.table f.name) f.name rts, acc.mostTs, acc.mostContent⟩
    else ⟨bumpNew acc.table f.name, acc.mostTs, acc.mostContent⟩

/-- The poll loop over the peer list. -/
def pollLoop (dl : String → DlResult) : List RemoteFile → PollAcc → PollAcc
  | [], acc => acc
  | f :: fs, acc => pollLoop dl fs (pollStep dl acc f)

/-- The sync-client state across polls: the timestamp table and
`last_remote_check`. -/
structure SyncState where
  table : Table
  lastRemoteCheck : Int
deriving DecidableEq

/-- `check_all_remote_files_for_updates`: rate-limited to once per
`remote_check_interval` (lines 444-446: an early return that touches no
state), otherwise run the poll over the filtered peer list and return the
most recent downloaded content. -/
def checkAllRemoteFiles (host : String) (remote : List RemoteFile)
    (dl : String → DlResult) (interval now : Int) (st : SyncState) :
    Option String × SyncState :=
  if now - st.lastRemoteCheck < interval then (none, st)
  else
    let acc := pollLoop dl (peerFilter host remote) ⟨st.table, 0, none⟩
    (acc.mostContent, ⟨acc.table, now⟩)

/-! ## Local capture store -/

/-- `get_next_file_number`: increment, wrap above 999 back to 1; returns
the new value, which is also the new counter. -/
def getNextFileNumber (c : Nat) : Nat × Nat :=
  let c1 := if c + 1 > 999 then 1 else c + 1
  (c1, c1)

/-- The counter value after `n` calls starting from the initial 0;
the `n`-th call (n ≥ 1) returns exactly this value. -/
def counterAfter : Nat → Nat
  | 0 => 0
  | n + 1 => (getNextFileNumber (counterAfter n)).2

/-- Process-lifetime capture bookkeeping: the file counter, the
first-capture flag and the last image hash. -/
structure CapState where
  fileCounter : Nat
  firstCapture : Bool
  lastImageHash : Option String
deriving DecidableEq

/-- The state at startup (lines 84-89). -/
def freshCapState : CapState :=
  ⟨0, true, none⟩

/-- One invocation of a capture routine: a plain-text save with the given
content, an image save with the given PNG read result, or a rich-content
save on the given clipboard state. -/
inductive CapEvent where
  | text (content : String)
  | image (data : Option (List Nat))
  | rich (s : ClipState)

/-- Run one capture routine.  The second component is `none` when no
capture happened, and otherwise records whether the capture was pushed to
the remote store (the sync branch was taken): the first successful capture
after startup clears `first_clipboard_capture` and skips the push. -/
def stepCapture (st : CapState) : CapEvent → CapState × Option Bool
  | .text _ =>
    let n := (getNextFileNumber st.fileCounter).2
    if st.firstCapture then (⟨n, false, st.lastImageHash⟩, some false)
    else (⟨n, st.firstCapture, st.lastImageHash⟩, some true)
  | .image none => (st, none)
  | .image (some bs) =>
    if bs = [] then (st, none)
    else if st.lastImageHash = some (md5hexBytes bs) then (st, none)
    else
      let n := (getNextFileNumber st.fileCounter).2
      if st.firstCapture then (⟨n, false, some (md5hexBytes bs)⟩, some false)
      else (⟨n, st.firstCapture, some (md5hexBytes bs)⟩, some true)
  | .rich s =>
    if s.formats = [] then (st, none)
    else
      let n := (getNextFileNumber st.fileCounter).2
      if richData s = [] then (⟨n, st.firstCapture, st.lastImageHash⟩, none)
      else if st.firstCapture then (⟨n, false, st.lastImageHash⟩, some false)
      else (⟨n, st.firstCapture, st.lastImageHash⟩, some true)

/-- Run a sequence of capture invocations, collecting the push flag of
every successful capture in order. -/
def runCaptures (st : CapState) : List CapEvent → List Bool
  | [] => []
  | e :: es =>
    match stepCapture st e with
    | (st1, some b) => b :: runCaptures st1 es
    | (st1, none) => runCaptures st1 es

/-! ## copyq multi-format write (`set_clipboard_multiple_formats`) -/

/-- The priority order used when assembling the copyq argument list. -/
def copyqSetPriority : List String :=
  ["text/plain", "text/html", "text/rtf", "application/rtf",
   "application/x-rtf", "text/richtext", "text/uri-list", "text/x-moz-url"]

/-- The `format, value` argument pairs: walk the priority list, append each
format present in the data and not already used. -/
def copyqFormatArgs (fd : List (String × String)) :
    List String → List String → List String
  | [], _ => []
  | f :: rest, used =>
    match lookupA fd f with
    | some v =>
      if used.contains f then copyqFormatArgs fd rest used
      else f :: v :: copyqFormatArgs fd rest (f :: used)
    | none => copyqFormatArgs fd rest used

/-- The full copyq command argument list. -/
def buildCopyqArgs (fd : List (String × String)) : List String :=
  "copyq" :: "copy" :: copyqFormatArgs fd copyqSetPriority []

/-- `sum(len(str(arg)) for arg in args)`. -/
def totalArgsLen (fd : List (String × String)) : Nat :=
  ((buildCopyqArgs fd).map String.length).sum

/-- What the copyq branch of `set_clipboard_multiple_formats` does:
either one multi-format `copyq copy` invocation, or a degraded
single-format plain-text write, or the exception path. -/
inductive ClipWriteAction where
  | multiFormat (args : List String)
  | plainOnly (content : String)
  | failed
deriving DecidableEq

/-- The copyq branch of `set_clipboard_multiple_formats` (lines 742-770):
above the 2 MiB total-argument-length limit, fall back to
`set_clipboard_content` with the `text/plain` entry, or with the first
value of the mapping when no `text/plain` entry exists (an empty mapping
would raise and be caught: `failed`). -/
def setClipboardMultipleFormats (fd : List (String × String)) : ClipWriteAction :=
  if totalArgsLen fd > 2 * 1024 * 1024 then
    match lookupA fd "text/plain" with
    | some c => .plainOnly c
    | none =>
      match fd with
      | (_, v) :: _ => .plainOnly v
      | [] => .failed
  else .multiFormat (buildCopyqArgs fd)

/-- The degraded-write content the source selects above the limit. -/
def fallbackContent (fd : List (String × String)) : String :=
  match lookupA fd "text/plain" with
  | some c => c
  | none =>
    match fd with
    | (_, v) :: _ => v
    | [] => ""

/-! ## Helper lemmas -/

theorem lookupT_setT_self (t : Table) (n : String) (v : Int) :
    lookupT (setT t n v) n = some v := by
  induction t with
  | nil => simp [setT, lookupT]
  | cons p t ih =>
    obtain ⟨m, w⟩ := p
    by_cases h : m = n
    · simp [setT, h, lookupT]
    · simpa [setT, h, lookupT, List.find?_cons] using ih

theorem lookupT_setT_ne (t : Table) (n m : String) (v : Int) (h : m ≠ n) :
    lookupT (setT t n v) m = lookupT t m := by
  induction t with
  | nil => simp [setT, lookupT, List.find?_cons, Ne.symm h]
  | cons p t ih =>
    obtain ⟨k, w⟩ := p
    by_cases hk : k = n
    · subst hk
      simp [setT, lookupT, List.find?_cons, Ne.symm h]
    · by_cases hm : k = m
      · subst hm
        simp [setT, hk, lookupT, List.find?_cons]
      · simpa [setT, hk, hm, lookupT, List.find?_cons] using ih

theorem lookupT_bumpNew_getD (t : Table) (n : String) :
    ((lookupT (bumpNew t n) n).getD 0 : Int) = (lookupT t n).getD 0 := by
  unfold bumpNew
  by_cases h : (lookupT t n).isNone
  · rw [if_pos h, lookupT_setT_self]
    rw [Option.isNone_iff_eq_none] at h
    rw [h]
    rfl
  · rw [if_neg h]

theorem lookupT_bumpNew_other (t : Table) (n m : String) (h : m ≠ n) :
    lookupT (bumpNew t n) m = lookupT t m := by
  unfold bumpNew
  by_cases hn : (lookupT t n).isNone
  · rw [if_pos hn, lookupT_setT_ne t n m 0 h]
  · rw [if_neg hn]

theorem pollStep_other (dl : String → DlResult) (acc : PollAcc) (f : RemoteFile)
    (n : String) (h : n ≠ f.name) :
    lookupT (pollStep dl acc f).table n = lookupT acc.table n := by
  have h0 := lookupT_bumpNew_other acc.table f.name n h
  unfold pollStep
  cases hlm : f.lastModified with
  | none => exact h0
  | some rts =>
    dsimp only
    by_cases hlt : (lookupT (bumpNew acc.table f.name) f.name).getD 0 < rts
    · rw [if_pos hlt]
      cases hdl : dl f.name with
      | fail => exact h0
      | crash => exact h0
      | gzFail =>
        dsimp only
        rw [lookupT_setT_ne _ _ _ _ h]
        exact h0
      | ok c =>
        dsimp only
        by_cases hc : pyStrip c ≠ "" ∧ acc.mostTs < rts
        · rw [if_pos hc]
          dsimp only
          rw [lookupT_setT_ne _ _ _ _ h]
          exact h0
        · rw [if_neg hc]
          dsimp only
          rw [lookupT_setT_ne _ _ _ _ h]
          exact h0
    · rw [if_neg hlt]
      exact h0

theorem pollStep_keeps (dl : String → DlResult) (acc : PollAcc) (f : RemoteFile)
    (h : ∀ t : Int, f.lastModified = some t → t ≤ acc.mostTs) :
    (pollStep dl acc f).mostTs = acc.mostTs ∧
      (pollStep dl acc f).mostContent = acc.mostContent := by
  unfold pollStep
  cases hlm : f.lastModified with
  | none => exact ⟨rfl, rfl⟩
  | some rts =>
    have hle := h rts hlm
    dsimp only
    by_cases hlt : (lookupT (bumpNew acc.table f.name) f.name).getD 0 < rts
    · rw [if_pos hlt]
      cases hdl : dl f.name with
      | fail => exact ⟨rfl, rfl⟩
      | crash => exact ⟨rfl, rfl⟩
      | gzFail => exact ⟨rfl, rfl⟩
      | ok c =>
        have hc : ¬ (pyStrip c ≠ "" ∧ acc.mostTs < rts) := by
          intro hc
          omega
        dsimp only
        rw [if_neg hc]
        exact ⟨rfl, rfl⟩
    · rw [if_neg hlt]
      exact ⟨rfl, rfl⟩

theorem pollStep_most_cases (dl : String → DlResult) (acc : PollAcc) (f : RemoteFile) :
    ((pollStep dl acc f).mostTs = acc.mostTs ∧
      (pollStep dl acc f).mostContent = acc.mostContent) ∨
      ∃ rts : Int, f.lastModified = some rts ∧ (pollStep dl acc f).mostTs = rts := by
  unfold pollStep
  cases hlm : f.lastModified with
  | none => exact Or.inl ⟨rfl, rfl⟩
  | some rts =>
    dsimp only
    by_cases hlt : (lookupT (bumpNew acc.table f.name) f.name).getD 0 < rts
    · rw [if_pos hlt]
      cases hdl : dl f.name with
      | fail => exact Or.inl ⟨rfl, rfl⟩
      | crash => exact Or.inl ⟨rfl, rfl⟩
      | gzFail => exact Or.inl ⟨rfl, rfl⟩
      | ok c =>
        dsimp only
        by_cases hc : pyStrip c ≠ "" ∧ acc.mostTs < rts
        · rw [if_pos hc]
          exact Or.inr ⟨rts, rfl, rfl⟩
        · rw [if_neg hc]
          exact Or.inl ⟨rfl, rfl⟩
    · rw [if_neg hlt]
      exact Or.inl ⟨rfl, rfl⟩

theorem pollStep_hit (dl : String → DlResult) (acc : PollAcc) (f : RemoteFile)
    (rts : Int) (c : String) (hlm : f.lastModified = some rts)
    (hlk : (lookupT acc.table f.name).getD 0 < rts)
    (hdl : dl f.name = .ok c) (hne : pyStrip c ≠ "") (hmost : acc.mostTs < rts) :
    pollStep dl acc f = ⟨setT (bumpNew acc.table f.name) f.name rts, rts, some c⟩ := by
  unfold pollStep
  rw [hlm]
  dsimp only
  rw [if_pos (by rw [lookupT_bumpNew_getD]; exact hlk), hdl]
  dsimp only
  rw [if_pos (And.intro hne hmost)]

theorem pollStep_entry (dl : String → DlResult) (acc : PollAcc) (f : RemoteFile)
    (rts : Int) (hlm : f.lastModified = some rts)
    (hlk : (lookupT acc.table f.name).getD 0 < rts)
    (hdl : ∃ c, dl f.name = .ok c) :
    lookupT (pollStep dl acc f).table f.name = some rts := by
  obtain ⟨c, hc⟩ := hdl
  unfold pollStep
  rw [hlm]
  dsimp only
  rw [if_pos (by rw [lookupT_bumpNew_getD]; exact hlk), hc]
  dsimp only
  by_cases hcc : pyStrip c ≠ "" ∧ acc.mostTs < rts
  · rw [if_pos hcc]
    exact lookupT_setT_self _ _ _
  · rw [if_neg hcc]
    exact lookupT_setT_self _ _ _

theorem pollStep_fail_getD (dl : String → DlResult) (acc : PollAcc) (f : RemoteFile)
    (hdl : dl f.name = .fail) :
    ((lookupT (pollStep dl acc f).table f.name).getD 0 : Int) =
      (lookupT acc.table f.name).getD 0 := by
  have h0 := lookupT_bumpNew_getD acc.table f.name
  unfold pollStep
  cases hlm : f.lastModified with
  | none => exact h0
  | some rts =>
    dsimp only
    by_cases hlt : (lookupT (bumpNew acc.table f.name) f.name).getD 0 < rts
    · rw [if_pos hlt, hdl]
      exact h0
    · rw [if_neg hlt]
      exact h0

theorem pollLoop_other (dl : String → DlResult) (fs : List RemoteFile) :
    ∀ (acc : PollAcc) (n : String), (∀ f ∈ fs, f.name ≠ n) →
      lookupT (pollLoop dl fs acc).table n = lookupT acc.table n := by
  induction fs with
  | nil => intro acc n _; rfl
  | cons f fs ih =>
    intro acc n h
    unfold pollLoop
    rw [ih _ n (fun g hg => h g (List.mem_cons_of_mem f hg))]
    exact pollStep_other dl acc f n (Ne.symm (h f (List.mem_cons_self f fs)))

theorem pollLoop_keeps (dl : String → DlResult) (fs : List RemoteFile) :
    ∀ acc : PollAcc,
      (∀ f ∈ fs, ∀ t : Int, f.lastModified = some t → t ≤ acc.mostTs) →
      (pollLoop dl fs acc).mostTs = acc.mostTs ∧
        (pollLoop dl fs acc).mostContent = acc.mostContent := by
  induction fs with
  | nil => intro acc _; exact ⟨rfl, rfl⟩
  | cons f fs ih =>
    intro acc h
    have hstep := pollStep_keeps dl acc f (h f (List.mem_cons_self f fs))
    unfold pollLoop
    have hrest := ih (pollStep dl acc f) (by
      intro g hg t hgt
      rw [hstep.1]
      exact h g (List.mem_cons_of_mem f hg) t hgt)
    exact ⟨hrest.1.trans hstep.1, hrest.2.trans hstep.2⟩

theorem pollLoop_max (dl : String → DlResult) (fs : List RemoteFile) :
    ∀ (acc : PollAcc) (p : RemoteFile) (c : String),
      (fs.map RemoteFile.name).Nodup →
      (∀ f ∈ fs, ∃ rts : Int, f.lastModified = some rts ∧
        (lookupT acc.table f.name).getD 0 < rts) →
      (∀ f ∈ fs, ∃ d, dl f.name = .ok d ∧ pyStrip d ≠ "") →
      p ∈ fs →
      (∀ g ∈ fs, g.name ≠ p.name → tsOf g < tsOf p) →
      acc.mostTs < tsOf p →
      dl p.name = .ok c →
      (pollLoop dl fs acc).mostContent = some c := by
  induction fs with
  | nil => intro acc p c _ _ _ hp; exact absurd hp (List.not_mem_nil p)
  | cons f fs ih =>
    intro acc p c hnd helig hok hp hmax hacc hdl
    have hnodup : f.name ∉ List.map RemoteFile.name fs ∧
        (List.map RemoteFile.name fs).Nodup := by
      rw [List.map_cons] at hnd
      exact List.nodup_cons.mp hnd
    rcases List.mem_cons.mp hp with rfl | hp2
    · -- the unique-max peer is at the head: it becomes the candidate and
      -- no later peer can displace it
      obtain ⟨rts, hlm, hlk⟩ := helig p (List.mem_cons_self p fs)
      obtain ⟨d, hdld, hdne⟩ := hok p (List.mem_cons_self p fs)
      have hdc : d = c := by
        rw [hdl] at hdld
        injection hdld with h2
        exact h2.symm
      subst hdc
      have hts : tsOf p = rts := by rw [tsOf, hlm]; rfl
      have hstep := pollStep_hit dl acc p rts d hlm hlk hdl hdne (hts ▸ hacc)
      unfold pollLoop
      rw [hstep]
      have hkeeps := pollLoop_keeps dl fs
        ⟨setT (bumpNew acc.table p.name) p.name rts, rts, some d⟩ (by
        intro g hg t hgt
        have hgname : g.name ≠ p.name := by
          intro he
          exact hnodup.1 (he ▸ List.mem_map_of_mem RemoteFile.name hg)
        have hlt := hmax g (List.mem_cons_of_mem p hg) hgname
        rw [hts] at hlt
        rw [tsOf, hgt] at hlt
        exact le_of_lt hlt)
      exact hkeeps.2
    · -- a smaller peer is at the head: processing it cannot reach the
      -- maximal timestamp, and the invariant carries through
      have hfname : f.name ≠ p.name := by
        intro he
        exact hnodup.1 (he ▸ List.mem_map_of_mem RemoteFile.name hp2)
      unfold pollLoop
      apply ih (pollStep dl acc f) p c hnodup.2
        (fun g hg => by
          obtain ⟨rts, hlm, hlk⟩ := helig g (List.mem_cons_of_mem f hg)
          have hgname : g.name ≠ f.name := by
            intro he
            exact hnodup.1 (he ▸ List.mem_map_of_mem RemoteFile.name hg)
          exact ⟨rts, hlm, by rw [pollStep_other dl acc f g.name hgname]; exact hlk⟩)
        (fun g hg => hok g (List.mem_cons_of_mem f hg))
        hp2
        (fun g hg => hmax g (List.mem_cons_of_mem f hg))
        ?_ hdl
      rcases pollStep_most_cases dl acc f with ⟨h1, _⟩ | ⟨rts, hlm, h1⟩
      · rw [h1]; exact hacc
      · rw [h1]
        have := hmax f (List.mem_cons_self f fs) hfname
        rw [tsOf, hlm] at this
        exact this

theorem pollLoop_entry (dl : String → DlResult) (fs : List RemoteFile) :
    ∀ (acc : PollAcc) (f : RemoteFile) (rts : Int),
      (fs.map RemoteFile.name).Nodup → f ∈ fs → f.lastModified = some rts →
      (lookupT acc.table f.name).getD 0 < rts → (∃ c, dl f.name = .ok c) →
      lookupT (pollLoop dl fs acc).table f.name = some rts := by
  induction fs with
  | nil => intro acc f rts _ hf; exact absurd hf (List.not_mem_nil f)
  | cons g fs ih =>
    intro acc f rts hnd hf hlm hlk hdl
    have hnodup : g.name ∉ List.map RemoteFile.name fs ∧
        (List.map RemoteFile.name fs).Nodup := by
      rw [List.map_cons] at hnd
      exact List.nodup_cons.mp hnd
    rcases List.mem_cons.mp hf with rfl | hf2
    · unfold pollLoop
      rw [pollLoop_other dl fs _ f.name (by
        intro g2 hg2 he
        exact hnodup.1 (he ▸ List.mem_map_of_mem RemoteFile.name hg2))]
      exact pollStep_entry dl acc f rts hlm hlk hdl
    · have hfname : f.name ≠ g.name := by
        intro he
        exact hnodup.1 (he ▸ List.mem_map_of_mem RemoteFile.name hf2)
      unfold pollLoop
      exact ih (pollStep dl acc g) f rts hnodup.2 hf2 hlm
        (by rw [pollStep_other dl acc g f.name hfname]; exact hlk) hdl

theorem pollLoop_fail (dl : String → DlResult) (fs : List RemoteFile) :
    ∀ (acc : PollAcc) (f : RemoteFile),
      (fs.map RemoteFile.name).Nodup → f ∈ fs → dl f.name = .fail →
      ((lookupT (pollLoop dl fs acc).table f.name).getD 0 : Int) =
        (lookupT acc.table f.name).getD 0 := by
  induction fs with
  | nil => intro acc f _ hf; exact absurd hf (List.not_mem_nil f)
  | cons g fs ih =>
    intro acc f hnd hf hdl
    have hnodup : g.name ∉ List.map RemoteFile.name fs ∧
        (List.map RemoteFile.name fs).Nodup := by
      rw [List.map_cons] at hnd
      exact List.nodup_cons.mp hnd
    rcases List.mem_cons.mp hf with rfl | hf2
    · unfold pollLoop
      rw [pollLoop_other dl fs _ f.name (by
        intro g2 hg2 he
        exact hnodup.1 (he ▸ List.mem_map_of_mem RemoteFile.name hg2))]
      exact pollStep_fail_getD dl acc f hdl
    · have hfname : f.name ≠ g.name := by
        intro he
        exact hnodup.1 (he ▸ List.mem_map_of_mem RemoteFile.name hf2)
      unfold pollLoop
      rw [ih (pollStep dl acc g) f hnodup.2 hf2 hdl,
        pollStep_other dl acc g f.name hfname]

/-! ## Claim theorems: remote sync -/

/-- Claim C2: in a poll in which every peer is eligible (remote timestamp
strictly above the recorded one, or newly discovered) and every download
succeeds with nonempty content, the content returned (and then applied to
the clipboard) is exactly that of the peer with the strictly greatest
remote timestamp, and the recorded timestamp of every downloaded peer is
advanced to its remote timestamp, including the peers that were not
chosen. -/
theorem c2_most_recent_wins (host : String) (remote : List RemoteFile)
    (dl : String → DlResult) (tbl : Table) (lastCheck now interval : Int)
    (p : RemoteFile) (c : String)
    (hrate : ¬ now - lastCheck < interval)
    (hnd : ((peerFilter host remote).map RemoteFile.name).Nodup)
    (helig : ∀ f ∈ peerFilter host remote, ∃ rts : Int,
      f.lastModified = some rts ∧ 0 < rts ∧ (lookupT tbl f.name).getD 0 < rts)
    (hok : ∀ f ∈ peerFilter host remote, ∃ d, dl f.name = .ok d ∧ pyStrip d ≠ "")
    (hp : p ∈ peerFilter host remote)
    (hmax : ∀ g ∈ peerFilter host remote, g.name ≠ p.name → tsOf g < tsOf p)
    (hdl : dl p.name = .ok c) :
    (checkAllRemoteFiles host remote dl interval now ⟨tbl, lastCheck⟩).1 = some c ∧
      ∀ f ∈ peerFilter host remote, ∀ rts : Int, f.lastModified = some rts →
        lookupT (checkAllRemoteFiles host remote dl interval now
          ⟨tbl, lastCheck⟩).2.table f.name = some rts := by
  unfold checkAllRemoteFiles
  rw [if_neg hrate]
  constructor
  · obtain ⟨rtsp, hlmp, hposp, _⟩ := helig p hp
    exact pollLoop_max dl (peerFilter host remote) ⟨tbl, 0, none⟩ p c hnd
      (fun f hf => by
        obtain ⟨rts, hlm, _, hlk⟩ := helig f hf
        exact ⟨rts, hlm, hlk⟩)
      hok hp hmax
      (by show (0 : Int) < tsOf p; rw [tsOf, hlmp]; exact hposp)
      hdl
  · intro f hf rts hrts
    obtain ⟨rts2, hlm2, _, hlk2⟩ := helig f hf
    have he : rts2 = rts := by
      rw [hrts] at hlm2
      injection hlm2 with h2
      exact h2.symm
    subst he
    obtain ⟨d, hd, _⟩ := hok f hf
    exact pollLoop_entry dl (peerFilter host remote) ⟨tbl, 0, none⟩ f rts2
      hnd hf hrts hlk2 ⟨d, hd⟩

/-- Witness for C2 at a concrete poll: two eligible peers (alpha at 10,
beta at 20, beta newly discovered), beta's content wins and both recorded
timestamps advance. -/
theorem c2_most_recent_wins_witness :
    (checkAllRemoteFiles "myhost"
        [⟨"clipboard-myhost.json.gz", some 30⟩,
         ⟨"clipboard-alpha.json.gz", some 10⟩,
         ⟨"clipboard-beta.json.gz", some 20⟩,
         ⟨"notes.txt", some 99⟩]
        (fun n => if n = "clipboard-alpha.json.gz" then .ok "A"
          else if n = "clipboard-beta.json.gz" then .ok "B" else .fail)
        5 100 ⟨[("clipboard-alpha.json.gz", 5)], 0⟩).1 = some "B" ∧
      ∀ f ∈ peerFilter "myhost"
          [⟨"clipboard-myhost.json.gz", some 30⟩,
           ⟨"clipboard-alpha.json.gz", some 10⟩,
           ⟨"clipboard-beta.json.gz", some 20⟩,
           ⟨"notes.txt", some 99⟩], ∀ rts : Int, f.lastModified = some rts →
        lookupT (checkAllRemoteFiles "myhost"
          [⟨"clipboard-myhost.json.gz", some 30⟩,
           ⟨"clipboard-alpha.json.gz", some 10⟩,
           ⟨"clipboard-beta.json.gz", some 20⟩,
           ⟨"notes.txt", some 99⟩]
          (fun n => if n = "clipboard-alpha.json.gz" then .ok "A"
            else if n = "clipboard-beta.json.gz" then .ok "B" else .fail)
          5 100 ⟨[("clipboard-alpha.json.gz", 5)], 0⟩).2.table f.name = some rts := by
  have hpeers : peerFilter "myhost"
      [⟨"clipboard-myhost.json.gz", some 30⟩,
       ⟨"clipboard-alpha.json.gz", some 10⟩,
       ⟨"clipboard-beta.json.gz", some 20⟩,
       ⟨"notes.txt", some 99⟩] =
      [⟨"clipboard-alpha.json.gz", some 10⟩, ⟨"clipboard-beta.json.gz", some 20⟩] := by
    decide
  refine c2_most_recent_wins "myhost" _ _ _ 0 100 5
    ⟨"clipboard-beta.json.gz", some 20⟩ "B" (by decide) (by rw [hpeers]; decide)
    ?_ ?_ (by rw [hpeers]; decide) ?_ (by decide)
  · intro f hf
    rw [hpeers] at hf
    rcases List.mem_cons.mp hf with rfl | hf
    · exact ⟨10, rfl, by decide, by decide⟩
    · rcases List.mem_cons.mp hf with rfl | hf
      · exact ⟨20, rfl, by decide, by decide⟩
      · exact absurd hf (List.not_mem_nil _)
  · intro f hf
    rw [hpeers] at hf
    rcases List.mem_cons.mp hf with rfl | hf
    · exact ⟨"A", by decide, by decide⟩
    · rcases List.mem_cons.mp hf with rfl | hf
      · exact ⟨"B", by decide, by decide⟩
      · exact absurd hf (List.not_mem_nil _)
  · intro g hg hne
    rw [hpeers] at hg
    rcases List.mem_cons.mp hg with rfl | hg
    · decide
    · rcases List.mem_cons.mp hg with rfl | hg
      · exact absurd rfl hne
      · exact absurd hg (List.not_mem_nil _)

/-- Claim C6: a poll attempted strictly less than
`remote_check_interval_seconds` after the previous effective poll returns
no result and leaves the whole sync state, the timestamp table included,
unchanged. -/
theorem c6_rate_limited (host : String) (remote : List RemoteFile)
    (dl : String → DlResult) (interval now : Int) (st : SyncState)
    (h : now - st.lastRemoteCheck < interval) :
    checkAllRemoteFiles host remote dl interval now st = (none, st) := by
  unfold checkAllRemoteFiles
  rw [if_pos h]

/-- Witness for C6: interval 5, polls 2 seconds apart, second poll is a
no-op. -/
theorem c6_rate_limited_witness :
    ((102 : Int) - 100 < 5) ∧
      checkAllRemoteFiles "h" [⟨"clipboard-a.json.gz", some 7⟩]
        (fun _ => .ok "x") 5 102 ⟨[("clipboard-a.json.gz", 3)], 100⟩ =
        (none, ⟨[("clipboard-a.json.gz", 3)], 100⟩) :=
  ⟨by decide, c6_rate_limited "h" [⟨"clipboard-a.json.gz", some 7⟩]
    (fun _ => .ok "x") 5 102 ⟨[("clipboard-a.json.gz", 3)], 100⟩ (by decide)⟩

/-- Claim C9: a peer whose download fails during a poll keeps its recorded
timestamp (absent entries keep the 0 the source treats them as), so the
update stays eligible and is retried on the next poll. -/
theorem c9_download_failure_atomic (host : String) (remote : List RemoteFile)
    (dl : String → DlResult) (interval now : Int) (st : SyncState)
    (f : RemoteFile)
    (hrate : ¬ now - st.lastRemoteCheck < interval)
    (hnd : ((peerFilter host remote).map RemoteFile.name).Nodup)
    (hf : f ∈ peerFilter host remote)
    (hdl : dl f.name = .fail) :
    ((lookupT (checkAllRemoteFiles host remote dl interval now st).2.table
      f.name).getD 0 : Int) = (lookupT st.table f.name).getD 0 := by
  unfold checkAllRemoteFiles
  rw [if_neg hrate]
  exact pollLoop_fail dl (peerFilter host remote) ⟨st.table, 0, none⟩ f hnd hf hdl

/-- Witness for C9: a known peer with a newer remote timestamp whose
download fails keeps its recorded timestamp 3. -/
theorem c9_download_failure_atomic_witness :
    ((lookupT (checkAllRemoteFiles "h" [⟨"clipboard-a.json.gz", some 7⟩]
      (fun _ => .fail) 5 100 ⟨[("clipboard-a.json.gz", 3)], 0⟩).2.table
      "clipboard-a.json.gz").getD 0 : Int) =
      (lookupT [("clipboard-a.json.gz", 3)] "clipboard-a.json.gz").getD 0 :=
  c9_download_failure_atomic "h" [⟨"clipboard-a.json.gz", some 7⟩]
    (fun _ => .fail) 5 100 ⟨[("clipboard-a.json.gz", 3)], 0⟩
    ⟨"clipboard-a.json.gz", some 7⟩ (by decide) (by decide) (by decide) (by decide)

/-- Claim C8: neither peer-discovery nor the per-poll peer list ever
contains the host's own sync file. -/
theorem c8_own_file_excluded (host : String) (remote : List RemoteFile)
    (f : RemoteFile)
    (h : f ∈ discoverFilter host remote ∨ f ∈ peerFilter host remote) :
    f.name ≠ ownFileName host := by
  rcases h with h | h
  · have h2 := (List.mem_filter.mp h).2
    rw [bne_iff_ne] at h2
    exact h2
  · have h2 := (List.mem_filter.mp h).2
    rw [Bool.and_eq_true, Bool.and_eq_true] at h2
    have h3 := h2.1.1
    rw [bne_iff_ne] at h3
    exact h3

/-- Witness for C8: a concrete listing containing the own file; the peer
entry that survives the filter is not the own file. -/
theorem c8_own_file_excluded_witness :
    ((⟨"clipboard-alpha.json.gz", some 1⟩ : RemoteFile) ∈
      peerFilter "h" [⟨"clipboard-h.json.gz", some 2⟩,
        ⟨"clipboard-alpha.json.gz", some 1⟩]) ∧
      (⟨"clipboard-alpha.json.gz", some 1⟩ : RemoteFile).name ≠ ownFileName "h" :=
  ⟨by decide, c8_own_file_excluded "h"
    [⟨"clipboard-h.json.gz", some 2⟩, ⟨"clipboard-alpha.json.gz", some 1⟩]
    ⟨"clipboard-alpha.json.gz", some 1⟩ (Or.inr (by decide))⟩

/-! ## Claim theorems: local capture store -/

/-- Claim C7: the `n`-th call of the file-number generator returns
`(n - 1) % 999 + 1`, so the sequence stays in `[1, 999]` and capture
number 1000 reuses the number of capture 1. -/
theorem c7_counter_rotation (n : Nat) (h : 1 ≤ n) :
    counterAfter n = (n - 1) % 999 + 1 := by
  induction n with
  | zero => omega
  | succ m ih =>
    match m, ih with
    | 0, _ => decide
    | k + 1, ih =>
      have ihk := ih (Nat.succ_le_succ (Nat.zero_le k))
      show (getNextFileNumber (counterAfter (k + 1))).2 = (k + 1) % 999 + 1
      rw [ihk]
      unfold getNextFileNumber
      dsimp only
      split
      · omega
      · omega

/-- Witness for C7: the 1000th capture reuses number 1. -/
theorem c7_counter_rotation_witness :
    1 ≤ 1000 ∧ counterAfter 1000 = (1000 - 1) % 999 + 1 :=
  ⟨by decide, c7_counter_rotation 1000 (by decide)⟩

/-- (C5 helper) An unsuccessful capture invocation leaves the
first-capture flag as it was. -/
theorem stepCapture_fail_first (st : CapState) (e : CapEvent)
    (h : (stepCapture st e).2 = none) :
    (stepCapture st e).1.firstCapture = st.firstCapture := by
  cases e with
  | text c =>
    simp only [stepCapture] at h
    by_cases hf : st.firstCapture <;> simp [hf] at h
  | image d =>
    cases d with
    | none => rfl
    | some bs =>
      simp only [stepCapture] at h ⊢
      by_cases hb : bs = []
      · rw [if_pos hb]
      · rw [if_neg hb] at h ⊢
        by_cases hh : st.lastImageHash = some (md5hexBytes bs)
        · rw [if_pos hh]
        · rw [if_neg hh] at h
          by_cases hf : st.firstCapture <;> simp [hf] at h
  | rich s =>
    simp only [stepCapture] at h ⊢
    by_cases hfor : s.formats = []
    · rw [if_pos hfor]
    · rw [if_neg hfor] at h ⊢
      by_cases hd : richData s = []
      · rw [if_pos hd]
      · rw [if_neg hd] at h
        by_cases hf : st.firstCapture <;> simp [hf] at h

/-- (C5 helper) A successful capture invocation pushes exactly when the
first-capture flag was already cleared, and always leaves it cleared. -/
theorem stepCapture_success (st : CapState) (e : CapEvent) (b : Bool)
    (h : (stepCapture st e).2 = some b) :
    b = !st.firstCapture ∧ (stepCapture st e).1.firstCapture = false := by
  cases e with
  | text c =>
    simp only [stepCapture] at h ⊢
    by_cases hf : st.firstCapture <;> simp [hf] at h ⊢ <;> simp [← h, hf]
  | image d =>
    cases d with
    | none => exact absurd h (by simp [stepCapture])
    | some bs =>
      simp only [stepCapture] at h ⊢
      by_cases hb : bs = []
      · rw [if_pos hb] at h
        exact absurd h (by simp)
      · rw [if_neg hb] at h ⊢
        by_cases hh : st.lastImageHash = some (md5hexBytes bs)
        · rw [if_pos hh] at h
          exact absurd h (by simp)
        · rw [if_neg hh] at h ⊢
          by_cases hf : st.firstCapture <;> simp [hf] at h ⊢ <;> simp [← h, hf]
  | rich s =>
    simp only [stepCapture] at h ⊢
    by_cases hfor : s.formats = []
    · rw [if_pos hfor] at h
      exact absurd h (by simp)
    · rw [if_neg hfor] at h ⊢
      by_cases hd : richData s = []
      · rw [if_pos hd] at h
        exact absurd h (by simp)
      · rw [if_neg hd] at h ⊢
        by_cases hf : st.firstCapture <;> simp [hf] at h ⊢ <;> simp [← h, hf]

/-- (C5 helper) Once the first-capture flag is cleared, every successful
capture is pushed. -/
theorem runCaptures_after_first (evs : List CapEvent) :
    ∀ st : CapState, st.firstCapture = false →
      ∀ b ∈ runCaptures st evs, b = true := by
  induction evs with
  | nil =>
    intro st _ b hb
    exact absurd hb (List.not_mem_nil b)
  | cons e es ih =>
    intro st h b hb
    unfold runCaptures at hb
    rcases hp : stepCapture st e with ⟨st1, r⟩
    rw [hp] at hb
    cases r with
    | none =>
      dsimp only at hb
      have hfirst : st1.firstCapture = false := by
        have h2 := stepCapture_fail_first st e (by rw [hp])
        rw [hp] at h2
        exact h2.trans h
      exact ih st1 hfirst b hb
    | some b0 =>
      dsimp only at hb
      have hsucc := stepCapture_success st e b0 (by rw [hp])
      rw [hp] at hsucc
      rcases List.mem_cons.mp hb with rfl | hb
      · rw [hsucc.1, h]
        rfl
      · exact ih st1 hsucc.2 b hb

/-- Claim C5: starting from a fresh process state, the first successful
capture of any kind is not pushed to the remote store, and every later
successful capture is pushed. -/
theorem c5_first_capture_suppressed (evs : List CapEvent) :
    (runCaptures freshCapState evs).head?.getD false = false ∧
      ∀ b ∈ (runCaptures freshCapState evs).tail, b = true := by
  suffices h : ∀ st : CapState, st.firstCapture = true →
      (runCaptures st evs).head?.getD false = false ∧
        ∀ b ∈ (runCaptures st evs).tail, b = true from
    h freshCapState rfl
  induction evs with
  | nil =>
    intro st _
    exact ⟨rfl, fun b hb => absurd hb (List.not_mem_nil b)⟩
  | cons e es ih =>
    intro st h
    unfold runCaptures
    rcases hp : stepCapture st e with ⟨st1, r⟩
    cases r with
    | none =>
      dsimp only
      have hfirst : st1.firstCapture = true := by
        have h2 := stepCapture_fail_first st e (by rw [hp])
        rw [hp] at h2
        exact h2.trans h
      exact ih st1 hfirst
    | some b0 =>
      dsimp only
      have hsucc := stepCapture_success st e b0 (by rw [hp])
      rw [hp] at hsucc
      have hb0 : b0 = false := by
        rw [hsucc.1, h]
        rfl
      rw [hb0]
      exact ⟨rfl, runCaptures_after_first es st1 hsucc.2⟩

/-- Witness for C5 at a concrete run: two text captures, the first not
pushed, the second pushed. -/
theorem c5_first_capture_suppressed_witness :
    (runCaptures freshCapState [.text "a", .text "b"]).head?.getD false = false ∧
      ∀ b ∈ (runCaptures freshCapState [.text "a", .text "b"]).tail, b = true :=
  c5_first_capture_suppressed [.text "a", .text "b"]

/-! ## Claim theorems: copyq multi-format write -/

/-- Claim C10: when the total copyq command-argument length exceeds
2 MiB, the write degrades to a single plain-text write of the
`text/plain` entry, or of the first format value when no `text/plain`
entry exists. -/
theorem c10_large_write_degrades (fd : List (String × String))
    (h : totalArgsLen fd > 2 * 1024 * 1024) :
    setClipboardMultipleFormats fd = .plainOnly (fallbackContent fd) := by
  unfold setClipboardMultipleFormats fallbackContent
  rw [if_pos h]
  cases hl : lookupA fd "text/plain" with
  | some c => rfl
  | none =>
    cases fd with
    | nil =>
      exfalso
      have h9 : totalArgsLen [] = 9 := by decide
      rw [h9] at h
      omega
    | cons p t =>
      obtain ⟨k, v⟩ := p
      rfl

/-- Witness for C10: a 2 MiB plain-text payload triggers the degraded
single-format write. -/
theorem c10_large_write_degrades_witness :
    totalArgsLen [("text/plain", String.mk (List.replicate 2097152 'a'))] >
        2 * 1024 * 1024 ∧
      setClipboardMultipleFormats
          [("text/plain", String.mk (List.replicate 2097152 'a'))] =
        .plainOnly (String.mk (List.replicate 2097152 'a')) := by
  have hargs : buildCopyqArgs [("text/plain", String.mk (List.replicate 2097152 'a'))] =
      ["copyq", "copy", "text/plain", String.mk (List.replicate 2097152 'a')] := rfl
  have hlen : (String.mk (List.replicate 2097152 'a')).length = 2097152 := by
    show (List.replicate 2097152 'a').length = 2097152
    exact List.length_replicate 2097152 'a'
  have htot : totalArgsLen [("text/plain", String.mk (List.replicate 2097152 'a'))] =
      2097171 := by
    unfold totalArgsLen
    rw [hargs, List.map_cons, List.map_cons, List.map_cons, List.map_cons,
      List.map_nil, List.sum_cons, List.sum_cons, List.sum_cons, List.sum_cons,
      List.sum_nil, hlen]
    decide
  have hgt : totalArgsLen [("text/plain", String.mk (List.replicate 2097152 'a'))] >
      2 * 1024 * 1024 := by
    rw [htot]
    decide
  refine ⟨hgt, ?_⟩
  rw [c10_large_write_degrades _ hgt]
  rfl

/-! ## Claim theorems: fingerprint engine -/

/-- (Engine helper) The MultiFormat fingerprint string is never empty. -/
theorem richFpStr_ne (comp : List (String × String)) : richFpStr comp ≠ "" := by
  intro h
  have h1 := congrArg String.length h
  rw [richFpStr, String.length_append, String.length_append] at h1
  have hp : ("\x7b\"formats\": " : String).length = 12 := rfl
  have hq : ("\x7d" : String).length = 1 := rfl
  have hz : ("" : String).length = 0 := rfl
  rw [hp, hq, hz] at h1
  omega

/-- (Engine helper) The plain-text stage ignores the engine state in the
fingerprint it produces. -/
theorem plainOrEmpty_fst (s : ClipState) (e1 e2 : EngineState) :
    (plainOrEmpty s e1).1 = (plainOrEmpty s e2).1 := by
  unfold plainOrEmpty
  cases getClipboardContent s <;> rfl

/-- (Engine helper) The plain-text stage never mutates the engine state. -/
theorem plainOrEmpty_snd (s : ClipState) (e : EngineState) :
    (plainOrEmpty s e).2 = e := by
  unfold plainOrEmpty
  cases getClipboardContent s <;> rfl

/-- (Engine helper, the heart of the anti-feedback rule) After one
rich-text fingerprint call, storing the returned fingerprint as
`last_clipboard_content` and keeping the updated tracker, a second call on
the same clipboard state returns the same fingerprint. -/
theorem richTrack_roundtrip (s : ClipState) (e : EngineState) :
    (richTrack s ⟨(richTrack s e).1, (richTrack s e).2.lastPlain⟩).1 =
      (richTrack s e).1 := by
  unfold richTrack
  cases hp : lookupA (comparisonData s) "text/plain" with
  | none => rfl
  | some p =>
    dsimp only
    by_cases ht : e.lastPlain = some p
    · rw [if_pos ht]
      dsimp only
      rw [if_pos ht]
      by_cases hl : e.last ≠ ""
      · simp only [if_pos hl]
      · simp only [if_neg hl]
        have hfp : richFingerprintOf s ≠ "" := richFpStr_ne (comparisonData s)
        simp only [if_pos hfp]
    · rw [if_neg ht]
      dsimp only
      rw [if_pos rfl]
      have hfp : richFingerprintOf s ≠ "" := richFpStr_ne (comparisonData s)
      simp only [if_pos hfp]

/-- (Engine helper) The engine state reached after one rich-text
fingerprint call is a fixed point of the call. -/
theorem richTrack_state_fixed (s : ClipState) (e : EngineState) :
    (richTrack s ((richTrack s e).2)).2 = (richTrack s e).2 := by
  unfold richTrack
  cases hp : lookupA (comparisonData s) "text/plain" with
  | none => rfl
  | some p =>
    dsimp only
    by_cases ht : e.lastPlain = some p
    · rw [if_pos ht]
      dsimp only
      rw [if_pos ht]
    · rw [if_neg ht]
      dsimp only
      rw [if_pos rfl]

/-- Claim C1: after a remote snapshot is applied to the clipboard and the
stored fingerprint is recomputed from the actual post-write clipboard
state, the next fingerprint computation over the unchanged clipboard
returns the stored value, so the capture-and-upload branch of the main
loop is not taken (no feedback loop). -/
theorem c1_remote_apply_no_reupload (s : ClipState) (e : EngineState) :
    (getFingerprint s (afterRemoteApply s e)).1 = (getFingerprint s e).1 ∧
      shouldCapture (getFingerprint s (afterRemoteApply s e)).1
        (afterRemoteApply s e).last = false := by
  have hmain : (getFingerprint s (afterRemoteApply s e)).1 =
      (getFingerprint s e).1 := by
    cases himg : imageFpOpt s with
    | some fp =>
      have hg : ∀ e2 : EngineState, getFingerprint s e2 = (fp, e2) := fun e2 => by
        unfold getFingerprint
        rw [himg]
      rw [hg, hg]
    | none =>
      by_cases hr : hasClipboardRichText s = true ∧ richData s ≠ []
      · have hg : ∀ e2 : EngineState, getFingerprint s e2 = richTrack s e2 :=
          fun e2 => by
            unfold getFingerprint
            rw [himg]
            dsimp only
            rw [if_pos hr]
        have hA : afterRemoteApply s e =
            ⟨(richTrack s e).1, (richTrack s e).2.lastPlain⟩ := by
          unfold afterRemoteApply
          rw [hg]
        rw [hA, hg, hg]
        exact richTrack_roundtrip s e
      · have hg : ∀ e2 : EngineState, getFingerprint s e2 = plainOrEmpty s e2 :=
          fun e2 => by
            unfold getFingerprint
            rw [himg]
            dsimp only
            rw [if_neg hr]
        rw [hg, hg]
        exact plainOrEmpty_fst s _ e
  refine ⟨hmain, ?_⟩
  have hlast : (afterRemoteApply s e).last = (getFingerprint s e).1 := rfl
  rw [hmain, hlast]
  unfold shouldCapture
  rw [bne_self_eq_false, Bool.and_false]

/-- (Engine helper) The engine state reached after one fingerprint call is
a fixed point of the call. -/
theorem getFingerprint_state_fixed (s : ClipState) (e : EngineState) :
    (getFingerprint s ((getFingerprint s e).2)).2 = (getFingerprint s e).2 := by
  cases himg : imageFpOpt s with
  | some fp =>
    have hg : ∀ e2 : EngineState, getFingerprint s e2 = (fp, e2) := fun e2 => by
      unfold getFingerprint
      rw [himg]
    rw [hg, hg]
  | none =>
    by_cases hr : hasClipboardRichText s = true ∧ richData s ≠ []
    · have hg : ∀ e2 : EngineState, getFingerprint s e2 = richTrack s e2 :=
        fun e2 => by
          unfold getFingerprint
          rw [himg]
          dsimp only
          rw [if_pos hr]
      rw [hg, hg]
      exact richTrack_state_fixed s e
    · have hg : ∀ e2 : EngineState, getFingerprint s e2 = plainOrEmpty s e2 :=
        fun e2 => by
          unfold getFingerprint
          rw [himg]
          dsimp only
          rw [if_neg hr]
      rw [hg, hg, plainOrEmpty_snd, plainOrEmpty_snd]

/-- Claim C3, amended: fingerprinting is idempotent from the second call
on with no intervening clipboard change; the second and third calls always
return the same fingerprint (the first call can differ, see the
counterexample). -/
theorem c3_fingerprint_idempotent_after_first (s : ClipState) (e : EngineState) :
    (getFingerprint s ((getFingerprint s e).2)).1 =
      (getFingerprint s ((getFingerprint s ((getFingerprint s e).2)).2)).1 := by
  rw [getFingerprint_state_fixed]

set_option maxRecDepth 100000 in
/-- Counterexample to claim C3 as stated: on a rich-text clipboard state
whose `text/plain` hash was not yet tracked while a different fingerprint
is stored as `last_clipboard_content` (a reachable situation: the previous
clipboard content was plain text), the second fingerprint call returns the
stored fingerprint of the duplicate-suppression path and differs from the
first call's result. -/
theorem c3_idempotence_cex :
    (getFingerprint
        ⟨["text/plain", "text/html"], none,
         fun f => if f = "text/plain" then some "abc"
           else if f = "text/html" then some "<b>abc</b>" else none,
         some "abc"⟩
        ((getFingerprint
          ⟨["text/plain", "text/html"], none,
           fun f => if f = "text/plain" then some "abc"
             else if f = "text/html" then some "<b>abc</b>" else none,
           some "abc"⟩
          ⟨plainFingerprint "previous", none⟩).2)).1 ≠
      (getFingerprint
        ⟨["text/plain", "text/html"], none,
         fun f => if f = "text/plain" then some "abc"
           else if f = "text/html" then some "<b>abc</b>" else none,
         some "abc"⟩
        ⟨plainFingerprint "previous", none⟩).1 := by
  decide

/-- (C4 helper) Pointwise HTML-whitespace-equivalent format data yields
identical comparison data. -/
theorem compMap_eq (l1 : List (String × String)) :
    ∀ l2 : List (String × String), htmlWsEquiv l1 l2 = true →
      l1.map (fun p => (p.1, compValue p.1 p.2)) =
        l2.map (fun p => (p.1, compValue p.1 p.2)) := by
  induction l1 with
  | nil =>
    intro l2 h
    cases l2 with
    | nil => rfl
    | cons b l2 => exact absurd h (by simp [htmlWsEquiv])
  | cons a l1 ih =>
    intro l2 h
    cases l2 with
    | nil => exact absurd h (by simp [htmlWsEquiv])
    | cons b l2 =>
      simp only [htmlWsEquiv, Bool.and_eq_true, beq_iff_eq] at h
      obtain ⟨⟨hk, hv⟩, ht⟩ := h
      simp only [List.map_cons, ih l2 ht]
      have hcomp : (a.1, compValue a.1 a.2) = (b.1, compValue b.1 b.2) := by
        rw [← hk]
        by_cases hh : a.1 = "text/html"
        · rw [if_pos hh, beq_iff_eq] at hv
          unfold compValue
          rw [hh]
          have hmem : ("text/html" : String) ∈ volatileList := by decide
          simp [hv, hmem]
        · rw [if_neg hh, beq_iff_eq] at hv
          rw [hv]
      rw [hcomp]

/-- Claim C4, amended: in the MultiFormat fingerprint, `text/plain` and
the RTF variants are compared by a raw content hash, HTML by a
whitespace-collapsed normalized hash, and the remaining formats by raw
value; consequently two clipboard states whose collected format data agree
except for whitespace inside the HTML entry produce equal fingerprints
(whitespace differences inside RTF entries, by contrast, change the
fingerprint, see the counterexample). -/
theorem c4_html_ws_insensitive (s1 s2 : ClipState)
    (h : htmlWsEquiv (richData s1) (richData s2) = true) :
    richFingerprintOf s1 = richFingerprintOf s2 := by
  unfold richFingerprintOf richFpStr comparisonData
  rw [compMap_eq (richData s1) (richData s2) h]

/-- Witness for the amended C4: two states equal except for whitespace
between HTML tags have equal MultiFormat fingerprints. -/
theorem c4_html_ws_insensitive_witness :
    htmlWsEquiv
        (richData ⟨["text/plain", "text/html"], none,
          fun f => if f = "text/plain" then some "hi"
            else if f = "text/html" then some "<b>hi</b> <i>x</i>" else none,
          some "hi"⟩)
        (richData ⟨["text/plain", "text/html"], none,
          fun f => if f = "text/plain" then some "hi"
            else if f = "text/html" then some "<b>hi</b>\n  <i>x</i>" else none,
          some "hi"⟩) = true ∧
      richFingerprintOf ⟨["text/plain", "text/html"], none,
          fun f => if f = "text/plain" then some "hi"
            else if f = "text/html" then some "<b>hi</b> <i>x</i>" else none,
          some "hi"⟩ =
        richFingerprintOf ⟨["text/plain", "text/html"], none,
          fun f => if f = "text/plain" then some "hi"
            else if f = "text/html" then some "<b>hi</b>\n  <i>x</i>" else none,
          some "hi"⟩ :=
  ⟨by decide, c4_html_ws_insensitive _ _ (by decide)⟩

set_option maxRecDepth 100000 in
/-- Counterexample to claim C4 as stated: two states with identical stable
content (`text/plain` is "hello" in both) whose only difference is
whitespace inside the volatile `text/rtf` entry ("a b" versus "a  b")
produce different fingerprints, because RTF variants are hashed without
whitespace normalization. -/
theorem c4_volatile_ws_cex :
    (getFingerprint
        ⟨["text/plain", "text/rtf"], none,
         fun f => if f = "text/plain" then some "hello"
           else if f = "text/rtf" then some "a b" else none,
         some "hello"⟩ ⟨"", none⟩).1 ≠
      (getFingerprint
        ⟨["text/plain", "text/rtf"], none,
         fun f => if f = "text/plain" then some "hello"
           else if f = "text/rtf" then some "a  b" else none,
         some "hello"⟩ ⟨"", none⟩).1 := by
  decide

end ClipSon
